import Mathlib

/-!
Verification of the order-pipeline concurrent step orchestrator.

This file shallowly embeds the components of the repository that the
claims concern:

* the Go error model (sentinel errors, wrapped errors, the optional
  classification capability `Kind() string`, and the chain walks done by
  `errors.Is` and `errors.As`);
* the array-variant orchestrator `Service.Process`
  (src/internal/order/order.go): a pre-sized result slice whose slot `i`
  is pre-filled with a placeholder and overwritten exactly once by the
  goroutine running step `i`, plus `errgroup` error selection (the first
  non-nil error in completion order is returned by `Wait`);
* the map-variant orchestrator (src/unnamed/part_008): a mutex-guarded
  map keyed by the three fixed step names, flattened in the fixed order
  payment, vendor, courier, with detail computed by `apperr.Kind`;
* the resource limiter constructors `pool.New`, `courier_pool.New` and
  `service.NewCourierPool`, and a step relation for the buffered-channel
  semaphore behind `Acquire`/`Release`;
* the cancellation-aware delays `shared.SleepOrDone` and
  `courier.waitOrCancel`;
* the orchestrator constructor `order.New` (panics on an empty step
  list, modelled as `Except`).

A single execution of `Process` is abstracted by the outcome each step's
`Run` produced, the duration measured for it, and the order in which the
goroutines completed (wrote their result and returned to the errgroup).
-/

set_option maxHeartbeats 1000000

namespace OrderPipeline

/-- Go error values as used in this repository: the two context
sentinels, a leaf error that may or may not carry the classification
capability `Kind() string` (errors.New leaves carry none; typed errors
such as `noCourierError` carry `some tag`), and a `fmt.Errorf`-style
wrapper with an `Unwrap` chain. -/
inductive GoError where
  | canceled
  | deadlineExceeded
  | errNew (msg : String) (kind : Option String)
  | wrap (msg : String) (inner : GoError)
deriving DecidableEq, Repr

/-- `errors.Is(e, target)`: walk the unwrap chain comparing against the
target.  Only `wrap` unwraps; none of the repository's error types
define an `Is` method, so comparison is plain equality. -/
def errorsIs : GoError → GoError → Bool
  | GoError.wrap m inner, t => decide (GoError.wrap m inner = t) || errorsIs inner t
  | e, t => decide (e = t)

/-- `errors.As(e, &k)` for the `kinder` capability of order.go: walk the
unwrap chain and return the first `Kind()` tag found.  The context
sentinels and `errors.New` leaves do not implement the capability, and
the `fmt.Errorf` wrapper itself does not either. -/
def errorsAsKind : GoError → Option String
  | GoError.canceled => none
  | GoError.deadlineExceeded => none
  | GoError.errNew _ kind => kind
  | GoError.wrap _ inner => errorsAsKind inner

/-- model.StepResult (src/internal/model/order.go). -/
structure StepResult where
  name : String
  status : String
  durationMS : Int
  detail : String
deriving DecidableEq, Repr

/-- order.Step: the identity of a registered step.  The behaviour of its
`Run` function in one concrete execution is supplied by `Exec`. -/
structure Step where
  name : String
deriving DecidableEq, Repr

/-- order.Service: holds the registered steps. -/
structure Service where
  steps : List Step
deriving DecidableEq, Repr

/-- order.New (src/internal/order/order.go lines 37-42): panics when no
steps are provided (modelled as `Except.error` carrying the panic
message), otherwise returns a Service holding exactly the given steps. -/
def orderNew (steps : List Step) : Except String Service :=
  if steps.length = 0 then Except.error "order.New: no steps"
  else Except.ok { steps := steps }

/-- One concrete execution of a `Process` call: what each step's `Run`
returned (`none` = nil error), the duration measured around it, and the
order in which the step goroutines completed (each completion writes the
step's result and hands its error to the errgroup). -/
structure Exec where
  outcome : Nat → Option GoError
  durMS : Nat → Int
  order : List Nat

/-- The classification done in the goroutine body of Service.Process
(src/internal/order/order.go lines 71-90): status defaults to "ok" and
detail to ""; a non-nil error matching context.Canceled or
context.DeadlineExceeded via errors.Is gives "canceled"; any other error
gives "error" with detail from the `kinder` capability when present. -/
def stepOutcomeResult (name : String) (err : Option GoError) (dur : Int) : StepResult :=
  match err with
  | none => { name := name, status := "ok", durationMS := dur, detail := "" }
  | some e =>
    if errorsIs e GoError.canceled || errorsIs e GoError.deadlineExceeded then
      { name := name, status := "canceled", durationMS := dur, detail := "" }
    else
      { name := name, status := "error", durationMS := dur, detail := (errorsAsKind e).getD "" }

/-- Name of the step registered at index `k` (empty if out of range;
only indices below the length are ever used). -/
def nameOf (steps : List Step) (k : Nat) : String :=
  ((steps[k]?).map Step.name).getD ""

/-- The pre-fill of slot `i` of the result slice
(src/internal/order/order.go line 62). -/
def prefill (steps : List Step) : Nat → StepResult := fun k =>
  { name := nameOf steps k, status := "canceled", durationMS := 0
    detail := "operation not completed" }

/-- The sequence of slot writes performed by the step goroutines, in
completion order: the goroutine of step `i` overwrites slot `i` (and
only slot `i`) with its classified result.  Indices outside the
registered range never run (no goroutine was launched for them). -/
def writeFold (steps : List Step) (oc : Nat → Option GoError) (dur : Nat → Int) :
    List Nat → (Nat → StepResult) → Nat → StepResult
  | [], out => out
  | i :: rest, out =>
    writeFold steps oc dur rest (fun k =>
      if k = i ∧ i < steps.length then stepOutcomeResult (nameOf steps i) (oc i) (dur i)
      else out k)

/-- Service.Process, array variant (src/internal/order/order.go lines
57-97): pre-fill one slot per registered step, let each goroutine
overwrite its own slot, and return the slice of length `len(steps)`
together with `g.Wait()`, i.e. the first non-nil error in completion
order. -/
def Process (steps : List Step) (e : Exec) : List StepResult × Option GoError :=
  ((List.range steps.length).map (writeFold steps e.outcome e.durMS e.order (prefill steps)),
   e.order.findSome? e.outcome)

/-- apperr sentinel errors (src/internal/apperr/apperr.go): plain
`errors.New` values with no classification capability. -/
def errPaymentDeclined : GoError := GoError.errNew "payment declined" none

/-- apperr.ErrVendorUnavailable. -/
def errVendorUnavailable : GoError := GoError.errNew "vendor unavailable" none

/-- apperr.ErrNoCourierAvailable. -/
def errNoCourierAvailable : GoError := GoError.errNew "no courier available" none

/-- apperr.Kind (src/internal/apperr/apperr.go lines 15-38): a fixed
errors.Is table, falling back to "internal" for any unmatched error. -/
def apperrKind (err : Option GoError) : String :=
  match err with
  | none => ""
  | some e =>
    if errorsIs e errPaymentDeclined then "payment_declined"
    else if errorsIs e errVendorUnavailable then "vendor_unavailable"
    else if errorsIs e errNoCourierAvailable then "no_courier"
    else if errorsIs e GoError.deadlineExceeded then "timeout"
    else if errorsIs e GoError.canceled then "canceled"
    else "internal"

/-- The classification done by `record` in the map-variant Process
(src/unnamed/part_008 lines 49-77): same status rule as the array
variant, but detail comes from apperr.Kind. -/
def recordResult (name : String) (err : Option GoError) (dur : Int) : StepResult :=
  match err with
  | none => { name := name, status := "ok", durationMS := dur, detail := "" }
  | some e =>
    if errorsIs e GoError.canceled || errorsIs e GoError.deadlineExceeded then
      { name := name, status := "canceled", durationMS := dur, detail := "" }
    else
      { name := name, status := "error", durationMS := dur, detail := apperrKind (some e) }

/-- The three fixed step names of the map variant, in registration
order: payment, vendor, courier (src/unnamed/part_008 lines 79-81). -/
def stepName3 : Nat → String
  | 0 => "payment"
  | 1 => "vendor"
  | _ => "courier"

/-- One mutex-guarded map write: `results[name] = ...`. -/
def mapUpdate (m : String → Option StepResult) (key : String) (v : StepResult) :
    String → Option StepResult :=
  fun k => if k = key then some v else m k

/-- The sequence of map writes performed by the three goroutines of the
map-variant Process, in completion order.  Goroutine `i` writes the key
`stepName3 i`; only indices 0, 1, 2 were launched. -/
def mapWriteFold (oc : Nat → Option GoError) (dur : Nat → Int) :
    List Nat → (String → Option StepResult) → String → Option StepResult
  | [], m => m
  | i :: rest, m =>
    mapWriteFold oc dur rest
      (if i < 3 then mapUpdate m (stepName3 i) (recordResult (stepName3 i) (oc i) (dur i))
       else m)

/-- flattenResults (src/unnamed/part_008 lines 89-101): extract the
payment, vendor and courier entries in that fixed order, skipping any
missing key. -/
def flattenResults (m : String → Option StepResult) : List StepResult :=
  ([m "payment", m "vendor", m "courier"]).filterMap id

/-- Service.Process, map variant (src/unnamed/part_008 lines 43-85):
record the three step results into a keyed map under a mutex, return
`flattenResults` of the map together with `g.Wait()`. -/
def ProcessMap (e : Exec) : List StepResult × Option GoError :=
  (flattenResults (mapWriteFold e.outcome e.durMS e.order (fun _ => none)),
   e.order.findSome? e.outcome)

/-- pool.New (src/internal/service/pool/pool.go lines 14-22): the
capacity of the semaphore channel after clamping. -/
def poolNew (size : Int) : Int :=
  let s := if size ≤ 0 then 1 else size
  if s > 128 then 128 else s

/-- courier_pool.New (src/internal/service/courier_pool/courier_pool.go
lines 13-21): identical clamping. -/
def courierPoolNew (size : Int) : Int :=
  let s := if size ≤ 0 then 1 else size
  if s > 128 then 128 else s

/-- service.NewCourierPool (src/internal/service/courier_pool.go lines
9-14): clamps only non-positive sizes to 1; no upper clamp. -/
def newCourierPool (size : Int) : Int :=
  if size ≤ 0 then 1 else size

/-- Reachable states of a semaphore built on a buffered channel of
capacity `K` (the `sem chan struct` of Pool): the number of held slots
starts at 0, a successful Acquire (channel send) requires free buffer
space, Release (channel receive) requires a held slot. -/
inductive PoolReach (K : Nat) : Nat → Prop where
  | init : PoolReach K 0
  | acquire {n : Nat} : PoolReach K n → n < K → PoolReach K (n + 1)
  | release {n : Nat} : PoolReach K (n + 1) → PoolReach K n

/-- The possible returns of one Pool.Acquire call
(src/internal/service/pool/pool.go lines 27-34), given the held count
`n` and the context state (`none` = not done, `some c` = done with
cause `c`): the select either sends into the buffered channel (needs
free space, returns nil) or reads ctx.Done() (needs the context done,
returns ctx.Err()).  When neither branch is ready the call blocks and
no return is possible. -/
inductive AcquireStep (K : Nat) : Nat → Option GoError → Option GoError × Nat → Prop where
  | ok {n : Nat} (ctx : Option GoError) : n < K → AcquireStep K n ctx (none, n + 1)
  | canceled {n : Nat} (c : GoError) : AcquireStep K n (some c) (some c, n)

/-- The outcome of the select race inside a cancellation-aware wait:
either the timer fires first, or the context is done first with the
given cause (the value of ctx.Err()). -/
inductive RaceOutcome where
  | timerFirst
  | ctxDone (cause : GoError)
deriving DecidableEq, Repr

/-- shared.SleepOrDone (src/internal/service/shared/sleep.go lines
11-24): non-positive durations return nil immediately; otherwise the
timer races the context. -/
def SleepOrDone (d : Int) (race : RaceOutcome) : Option GoError :=
  if d ≤ 0 then none
  else
    match race with
    | RaceOutcome.timerFirst => none
    | RaceOutcome.ctxDone cause => some cause

/-- courier.waitOrCancel (src/internal/service/courier/courier.go lines
84-97): textually the same body as shared.SleepOrDone. -/
def waitOrCancel (d : Int) (race : RaceOutcome) : Option GoError :=
  if d ≤ 0 then none
  else
    match race with
    | RaceOutcome.timerFirst => none
    | RaceOutcome.ctxDone cause => some cause

/-- The three steps of the map-variant Process, as they would be
registered with the array-variant Service. -/
def steps3 : List Step := [{ name := "payment" }, { name := "vendor" }, { name := "courier" }]

/-- A two-step registration used in concrete executions. -/
def c1steps : List Step := [{ name := "slow" }, { name := "fast" }]

/-- An execution in which both steps succeed and the second-registered
step completes first. -/
def c1exec : Exec :=
  { outcome := fun _ => none, durMS := fun _ => 0, order := [1, 0] }

/-- A three-task execution, all successful, completing out of
registration order. -/
def c1mexec : Exec :=
  { outcome := fun _ => none, durMS := fun _ => 0, order := [2, 0, 1] }

/-- An execution for the classification claim: step 0 succeeds, step 1
fails with a wrapped propagated cancellation, step 2 fails with a
wrapped classified domain error; completion order 2, 0, 1. -/
def c2exec : Exec :=
  { outcome := fun i =>
      if i = 1 then some (GoError.wrap "payment: " GoError.canceled)
      else if i = 2 then
        some (GoError.wrap "courier assign: " (GoError.errNew "no courier available" (some "no_courier")))
      else none
    durMS := fun _ => 0
    order := [2, 0, 1] }

/-- Two steps for the first-error claim. -/
def c3steps : List Step := [{ name := "payment" }, { name := "vendor" }]

/-- An execution in which the caller's deadline elapses and step 0
returns the propagated deadline error, completing before step 1, which
returns a classified domain error: a cancellation error and a domain
error are both observed, and the cancellation completed first. -/
def c3exec : Exec :=
  { outcome := fun i =>
      if i = 0 then some GoError.deadlineExceeded
      else if i = 1 then some (GoError.errNew "vendor unavailable" (some "vendor_unavailable"))
      else none
    durMS := fun _ => 0
    order := [0, 1] }

/-- An execution in which step 0 succeeds and step 1 fails with a
classified domain error. -/
def c3wexec : Exec :=
  { outcome := fun i =>
      if i = 1 then some (GoError.errNew "no courier available" (some "no_courier"))
      else none
    durMS := fun _ => 0
    order := [0, 1] }

/-- An execution whose three tasks all succeed. -/
def c10exec : Exec :=
  { outcome := fun _ => none, durMS := fun _ => 0, order := [1, 2, 0] }

/-- An execution in which the vendor task (index 1) fails with a plain
untagged error and the other tasks succeed. -/
def c6exec : Exec :=
  { outcome := fun i => if i = 1 then some (GoError.errNew "boom" none) else none
    durMS := fun _ => 0
    order := [0, 1, 2] }

/-- An execution in which the payment task (index 0) fails with a plain
untagged error and the other tasks succeed. -/
def c7exec : Exec :=
  { outcome := fun i => if i = 0 then some (GoError.errNew "wire failure" none) else none
    durMS := fun _ => 0
    order := [1, 0, 2] }

/-- An execution with one classified failure (courier, index 2) used to
compare the two aggregation strategies. -/
def c7wexec : Exec :=
  { outcome := fun i =>
      if i = 2 then some (GoError.wrap "courier assign: " errNoCourierAvailable) else none
    durMS := fun _ => 0
    order := [2, 1, 0] }

/-- C5 counterexample: service.NewCourierPool, one of the claim's two
cited Resource Limiter constructors, does not clamp 129 down to 128. -/
theorem c5_counterexample_newCourierPool_129 :
    newCourierPool 129 = 129 ∧ newCourierPool 129 ≠ 128 := by
  constructor <;> decide

/-- C5 (amended): pool.New and courier_pool.New clamp the capacity to
the interval from 1 to 128 exactly as claimed (non-positive becomes 1,
anything above 128 becomes 128, values in range are kept); but
service.NewCourierPool only clamps non-positive arguments to 1 and
keeps every positive argument, including 129 and 1000, unchanged. -/
theorem c5_capacity_clamping :
    (∀ n : Int, n ≤ 0 → poolNew n = 1)
    ∧ (∀ n : Int, 1 ≤ n → n ≤ 128 → poolNew n = n)
    ∧ (∀ n : Int, 128 < n → poolNew n = 128)
    ∧ (∀ n : Int, n ≤ 0 → courierPoolNew n = 1)
    ∧ (∀ n : Int, 1 ≤ n → n ≤ 128 → courierPoolNew n = n)
    ∧ (∀ n : Int, 128 < n → courierPoolNew n = 128)
    ∧ (∀ n : Int, n ≤ 0 → newCourierPool n = 1)
    ∧ (∀ n : Int, 1 ≤ n → newCourierPool n = n) := by
  refine ⟨?_, ?_, ?_, ?_, ?_, ?_, ?_, ?_⟩ <;>
    intro n <;> intros <;> simp only [poolNew, courierPoolNew, newCourierPool] <;>
    (repeat' split) <;> omega

/-- C5 witness: the amended clamping theorem evaluated at -129, 64 and
1000 for pool.New and at 1000 for service.NewCourierPool. -/
theorem c5_capacity_clamping_witness :
    ((-129 : Int) ≤ 0 ∧ poolNew (-129) = 1)
    ∧ ((1 : Int) ≤ 64 ∧ (64 : Int) ≤ 128 ∧ poolNew 64 = 64)
    ∧ ((128 : Int) < 1000 ∧ poolNew 1000 = 128)
    ∧ ((1 : Int) ≤ 1000 ∧ newCourierPool 1000 = 1000) :=
  ⟨⟨by decide, c5_capacity_clamping.1 (-129) (by decide)⟩,
   ⟨by decide, by decide, c5_capacity_clamping.2.1 64 (by decide) (by decide)⟩,
   ⟨by decide, c5_capacity_clamping.2.2.1 1000 (by decide)⟩,
   ⟨by decide, c5_capacity_clamping.2.2.2.2.2.2.2 1000 (by decide)⟩⟩

/-- C8: order.New with zero steps is a fatal programming error (the
panic, modelled as the error branch of the Except), never a returned
Service; with a non-empty step list it returns a Service holding
exactly those steps. -/
theorem c8_new_panics_on_empty :
    orderNew [] = Except.error "order.New: no steps"
    ∧ ∀ (s : Step) (rest : List Step),
        orderNew (s :: rest) = Except.ok { steps := s :: rest } := by
  constructor
  · rfl
  · intro s rest
    simp [orderNew]

/-- C9: the cancelable delay returns immediately with success for every
non-positive duration regardless of the context; for positive durations
it returns success when the timer fires first and the context's
cancellation cause when the context is done first; and
courier.waitOrCancel behaves identically to shared.SleepOrDone. -/
theorem c9_sleep_or_done :
    (∀ (d : Int) (race : RaceOutcome), d ≤ 0 → SleepOrDone d race = none)
    ∧ (∀ d : Int, 0 < d → SleepOrDone d RaceOutcome.timerFirst = none)
    ∧ (∀ (d : Int) (c : GoError), 0 < d →
        SleepOrDone d (RaceOutcome.ctxDone c) = some c)
    ∧ (∀ (d : Int) (race : RaceOutcome), waitOrCancel d race = SleepOrDone d race) := by
  refine ⟨?_, ?_, ?_, ?_⟩
  · intro d race h
    simp [SleepOrDone, h]
  · intro d _h
    simp [SleepOrDone]
  · intro d c h
    have hd : ¬ d ≤ 0 := by omega
    simp [SleepOrDone, hd]
  · intro d race
    rfl

/-- C9 witness: a negative duration with a canceled context returns nil
immediately, and a positive duration whose context fires first returns
the cause. -/
theorem c9_sleep_or_done_witness :
    ((-5 : Int) ≤ 0 ∧ SleepOrDone (-5) (RaceOutcome.ctxDone GoError.canceled) = none)
    ∧ ((0 : Int) < 7 ∧ SleepOrDone 7 (RaceOutcome.ctxDone GoError.deadlineExceeded)
        = some GoError.deadlineExceeded) :=
  ⟨⟨by decide, c9_sleep_or_done.1 (-5) (RaceOutcome.ctxDone GoError.canceled) (by decide)⟩,
   ⟨by decide, c9_sleep_or_done.2.2.1 7 GoError.deadlineExceeded (by decide)⟩⟩

/-- Both classification helpers put the given name into the result. -/
theorem stepOutcomeResult_name (nm : String) (err : Option GoError) (d : Int) :
    (stepOutcomeResult nm err d).name = nm := by
  cases err with
  | none => rfl
  | some e =>
    simp only [stepOutcomeResult]
    split <;> rfl

/-- recordResult also puts the given name into the result. -/
theorem recordResult_name (nm : String) (err : Option GoError) (d : Int) :
    (recordResult nm err d).name = nm := by
  cases err with
  | none => rfl
  | some e =>
    simp only [recordResult]
    split <;> rfl

/-- A slot whose index never completes keeps its current content. -/
theorem writeFold_not_mem (steps : List Step) (oc : Nat → Option GoError) (dur : Nat → Int) :
    ∀ (order : List Nat) (out : Nat → StepResult) (k : Nat), k ∉ order →
      writeFold steps oc dur order out k = out k := by
  intro order
  induction order with
  | nil => intro out k _; rfl
  | cons i rest ih =>
    intro out k hk
    simp only [List.mem_cons, not_or] at hk
    simp only [writeFold]
    rw [ih _ k hk.2]
    exact if_neg (fun hc => hk.1 hc.1)

/-- The slot of a registered step that completed holds that step's
classified result, whatever the completion order and whatever was in
the slot before. -/
theorem writeFold_mem (steps : List Step) (oc : Nat → Option GoError) (dur : Nat → Int) :
    ∀ (order : List Nat) (out : Nat → StepResult) (k : Nat), k ∈ order → k < steps.length →
      writeFold steps oc dur order out k = stepOutcomeResult (nameOf steps k) (oc k) (dur k) := by
  intro order
  induction order with
  | nil => intro out k hk _; exact absurd hk (List.not_mem_nil k)
  | cons i rest ih =>
    intro out k hk hlt
    by_cases hr : k ∈ rest
    · simp only [writeFold]
      exact ih _ k hr hlt
    · have hki : k = i := by
        rcases List.mem_cons.mp hk with h | h
        · exact h
        · exact absurd h hr
      subst hki
      simp only [writeFold]
      rw [writeFold_not_mem steps oc dur rest _ k hr]
      exact if_pos ⟨rfl, hlt⟩

/-- Slot writes never change which step name a slot carries. -/
theorem writeFold_name (steps : List Step) (oc : Nat → Option GoError) (dur : Nat → Int) :
    ∀ (order : List Nat) (out : Nat → StepResult),
      (∀ k, (out k).name = nameOf steps k) →
      ∀ k, (writeFold steps oc dur order out k).name = nameOf steps k := by
  intro order
  induction order with
  | nil => intro out h k; exact h k
  | cons i rest ih =>
    intro out h k
    simp only [writeFold]
    apply ih
    intro k2
    by_cases hc : k2 = i ∧ i < steps.length
    · rw [if_pos hc, stepOutcomeResult_name, hc.1]
    · rw [if_neg hc]
      exact h k2

/-- In range, nameOf is the registered step's name. -/
theorem nameOf_lt (steps : List Step) (n : Nat) (hn : n < steps.length) :
    nameOf steps n = steps[n].name := by
  simp [nameOf, List.getElem?_eq_getElem hn]

/-- The slice returned by the array-variant Process, slot by slot. -/
theorem process_fst_getElem (steps : List Step) (e : Exec) (k : Nat) (hk : k < steps.length) :
    (Process steps e).1[k]? =
      some (writeFold steps e.outcome e.durMS e.order (prefill steps) k) := by
  simp only [Process]
  rw [List.getElem?_map, List.getElem?_range hk]
  rfl

/-- The array-variant result list carries the registered names in
registration order, for every completion order. -/
theorem process_fst_map_name (steps : List Step) (e : Exec) :
    (Process steps e).1.map StepResult.name = steps.map Step.name := by
  apply List.ext_getElem
  · simp [Process]
  · intro n h1 h2
    have hn : n < steps.length := by simpa using h2
    simp only [Process, List.getElem_map, List.getElem_range]
    rw [writeFold_name steps e.outcome e.durMS e.order (prefill steps) (fun _ => rfl) n]
    exact nameOf_lt steps n hn

/-- Keys that no completing goroutine writes keep their map entry. -/
theorem mapWriteFold_not_key (oc : Nat → Option GoError) (dur : Nat → Int) :
    ∀ (order : List Nat) (m : String → Option StepResult) (key : String),
      (∀ j ∈ order, j < 3 → stepName3 j ≠ key) →
      mapWriteFold oc dur order m key = m key := by
  intro order
  induction order with
  | nil => intro m key _; rfl
  | cons i rest ih =>
    intro m key h
    simp only [mapWriteFold]
    rw [ih _ key (fun j hj => h j (List.mem_cons_of_mem i hj))]
    by_cases hi : i < 3
    · rw [if_pos hi]
      simp only [mapUpdate]
      rw [if_neg]
      intro hk
      exact h i (List.mem_cons_self i rest) hi hk.symm
    · rw [if_neg hi]

/-- The three goroutines of the map variant write pairwise distinct
keys. -/
theorem stepName3_lt_inj :
    ∀ j k : Nat, j < 3 → k < 3 → stepName3 j = stepName3 k → j = k := by
  intro j k hj hk
  interval_cases j <;> interval_cases k <;> decide

/-- After the goroutine of index `k` completed, the map holds its
recorded result at its key, whatever the completion order. -/
theorem mapWriteFold_key (oc : Nat → Option GoError) (dur : Nat → Int) :
    ∀ (order : List Nat) (m : String → Option StepResult) (k : Nat),
      k ∈ order → k < 3 →
      mapWriteFold oc dur order m (stepName3 k) =
        some (recordResult (stepName3 k) (oc k) (dur k)) := by
  intro order
  induction order with
  | nil => intro m k hk _; exact absurd hk (List.not_mem_nil k)
  | cons i rest ih =>
    intro m k hk hk3
    by_cases hr : k ∈ rest
    · simp only [mapWriteFold]
      exact ih _ k hr hk3
    · have hki : k = i := by
        rcases List.mem_cons.mp hk with h | h
        · exact h
        · exact absurd h hr
      subst hki
      simp only [mapWriteFold]
      rw [mapWriteFold_not_key oc dur rest _ (stepName3 k) ?_]
      · rw [if_pos hk3]
        simp [mapUpdate]
      · intro j hj hj3 hEq
        exact hr (stepName3_lt_inj j k hj3 hk3 hEq ▸ hj)

/-- When all three tasks have completed, the flattened map-variant
result list is the three recorded results in the fixed order payment,
vendor, courier. -/
theorem processMap_fst (e : Exec) (h3 : e.order.Perm (List.range 3)) :
    (ProcessMap e).1 =
      [recordResult "payment" (e.outcome 0) (e.durMS 0),
       recordResult "vendor" (e.outcome 1) (e.durMS 1),
       recordResult "courier" (e.outcome 2) (e.durMS 2)] := by
  have h0 : (0 : Nat) ∈ e.order := h3.mem_iff.mpr (by decide)
  have h1 : (1 : Nat) ∈ e.order := h3.mem_iff.mpr (by decide)
  have h2 : (2 : Nat) ∈ e.order := h3.mem_iff.mpr (by decide)
  have k0 : mapWriteFold e.outcome e.durMS e.order (fun _ => none) "payment"
      = some (recordResult "payment" (e.outcome 0) (e.durMS 0)) :=
    mapWriteFold_key e.outcome e.durMS e.order _ 0 h0 (by decide)
  have k1 : mapWriteFold e.outcome e.durMS e.order (fun _ => none) "vendor"
      = some (recordResult "vendor" (e.outcome 1) (e.durMS 1)) :=
    mapWriteFold_key e.outcome e.durMS e.order _ 1 h1 (by decide)
  have k2 : mapWriteFold e.outcome e.durMS e.order (fun _ => none) "courier"
      = some (recordResult "courier" (e.outcome 2) (e.durMS 2)) :=
    mapWriteFold_key e.outcome e.durMS e.order _ 2 h2 (by decide)
  simp only [ProcessMap, flattenResults]
  rw [k0, k1, k2]
  rfl

/-- C1: for every non-empty step list and every completion order, the
array-variant Process returns exactly one StepResult per registered
step, in registration order, with matching names; and for every order
in which the map variant's three tasks complete, its result list is
payment, vendor, courier in registration order. -/
theorem c1_results_in_registration_order :
    (∀ (steps : List Step) (e : Exec), steps ≠ [] →
      (Process steps e).1.length = steps.length
      ∧ (Process steps e).1.map StepResult.name = steps.map Step.name)
    ∧ (∀ e : Exec, e.order.Perm (List.range 3) →
      (ProcessMap e).1.map StepResult.name = ["payment", "vendor", "courier"]) := by
  constructor
  · intro steps e _
    refine ⟨by simp [Process], process_fst_map_name steps e⟩
  · intro e h3
    rw [processMap_fst e h3]
    simp [recordResult_name]

/-- C1 witness: a two-step list whose second step completes first still
yields results in registration order; same for the map variant with
completion order courier, payment, vendor. -/
theorem c1_results_in_registration_order_witness :
    (c1steps ≠ [] ∧ (Process c1steps c1exec).1.map StepResult.name = ["slow", "fast"])
    ∧ (c1mexec.order.Perm (List.range 3)
      ∧ (ProcessMap c1mexec).1.map StepResult.name = ["payment", "vendor", "courier"]) :=
  ⟨⟨by decide, (c1_results_in_registration_order.1 c1steps c1exec (by decide)).2⟩,
   ⟨by decide, c1_results_in_registration_order.2 c1mexec (by decide)⟩⟩

/-- C2: for every registered step and every outcome of its run, the
StepResult recorded by the array-variant Process is classified exactly
as the claim states: "ok" on nil error; "canceled" when errors.Is
matches context.Canceled or context.DeadlineExceeded; otherwise "error"
with detail the Kind tag found by errors.As through the wrapping chain,
or empty when none is found. -/
theorem c2_classification (steps : List Step) (e : Exec) (i : Nat)
    (hperm : e.order.Perm (List.range steps.length)) (hi : i < steps.length) :
    (e.outcome i = none →
      (Process steps e).1[i]? =
        some { name := nameOf steps i, status := "ok", durationMS := e.durMS i, detail := "" })
    ∧ (∀ c, e.outcome i = some c →
      (errorsIs c GoError.canceled || errorsIs c GoError.deadlineExceeded) = true →
      (Process steps e).1[i]? =
        some { name := nameOf steps i, status := "canceled", durationMS := e.durMS i
               detail := "" })
    ∧ (∀ c, e.outcome i = some c →
      (errorsIs c GoError.canceled || errorsIs c GoError.deadlineExceeded) = false →
      (Process steps e).1[i]? =
        some { name := nameOf steps i, status := "error", durationMS := e.durMS i
               detail := (errorsAsKind c).getD "" }) := by
  have hmem : i ∈ e.order := hperm.mem_iff.mpr (List.mem_range.mpr hi)
  have hslot := process_fst_getElem steps e i hi
  rw [writeFold_mem steps e.outcome e.durMS e.order (prefill steps) i hmem hi] at hslot
  refine ⟨?_, ?_, ?_⟩
  · intro hoc
    rw [hslot, hoc]
    rfl
  · intro c hoc hcan
    rw [hslot, hoc]
    simp only [stepOutcomeResult, hcan]
    rfl
  · intro c hoc hcan
    rw [hslot, hoc]
    simp only [stepOutcomeResult, hcan]
    rfl

/-- C2 witness: with steps payment, vendor, courier and completion
order 2, 0, 1, the courier step failing with a wrapped tagged error is
recorded as status error with detail no_courier. -/
theorem c2_classification_witness :
    c2exec.order.Perm (List.range steps3.length) ∧ 2 < steps3.length
    ∧ (Process steps3 c2exec).1[2]? =
        some { name := "courier", status := "error", durationMS := 0, detail := "no_courier" } :=
  ⟨by decide, by decide,
   (c2_classification steps3 c2exec 2 (by decide) (by decide)).2.2
     (GoError.wrap "courier assign: " (GoError.errNew "no courier available" (some "no_courier")))
     rfl (by decide)⟩

/-- C10: the array-variant Process returns a nil error exactly when
every returned StepResult has status "ok"; in particular a non-nil
error accompanies any "error" or "canceled" result, and a nil error
means no placeholder survived. -/
theorem c10_nil_error_iff_all_ok (steps : List Step) (e : Exec)
    (hperm : e.order.Perm (List.range steps.length)) :
    (Process steps e).2 = none
      ↔ (Process steps e).1.all (fun r => r.status == "ok") = true := by
  constructor
  · intro h
    simp only [Process] at h
    have hall : ∀ j ∈ e.order, e.outcome j = none := List.findSome?_eq_none_iff.mp h
    rw [List.all_eq_true]
    intro r hr
    simp only [Process] at hr
    rcases List.mem_map.mp hr with ⟨k, hk, hrk⟩
    have hkl : k < steps.length := List.mem_range.mp hk
    have hko : k ∈ e.order := hperm.mem_iff.mpr hk
    rw [writeFold_mem steps e.outcome e.durMS e.order (prefill steps) k hko hkl] at hrk
    rw [← hrk]
    rw [hall k hko]
    rfl
  · intro h
    simp only [Process]
    rw [List.findSome?_eq_none_iff]
    intro j hj
    cases hoj : e.outcome j with
    | none => rfl
    | some c =>
      exfalso
      have hjr : j ∈ List.range steps.length := hperm.mem_iff.mp hj
      have hjl : j < steps.length := List.mem_range.mp hjr
      have hmem : writeFold steps e.outcome e.durMS e.order (prefill steps) j
          ∈ (Process steps e).1 := by
        simp only [Process]
        exact List.mem_map.mpr ⟨j, hjr, rfl⟩
      have hok := List.all_eq_true.mp h _ hmem
      rw [writeFold_mem steps e.outcome e.durMS e.order (prefill steps) j hj hjl, hoj] at hok
      simp only [stepOutcomeResult] at hok
      split at hok <;> simp at hok

/-- C10 witness: an execution whose three steps all succeed has a nil
error and all-ok results. -/
theorem c10_nil_error_iff_all_ok_witness :
    c10exec.order.Perm (List.range steps3.length)
    ∧ ((Process steps3 c10exec).2 = none
      ↔ (Process steps3 c10exec).1.all (fun r => r.status == "ok") = true) :=
  ⟨by decide, c10_nil_error_iff_all_ok steps3 c10exec (by decide)⟩

/-- The semaphore invariant: a buffered channel never holds more than
its capacity. -/
theorem poolReach_le {K n : Nat} (h : PoolReach K n) : n ≤ K := by
  induction h with
  | init => omega
  | acquire _ hlt _ih => omega
  | release _ ih => omega

/-- The clamped pool capacity is at least 1. -/
theorem poolNew_pos (size : Int) : 1 ≤ poolNew size := by
  simp only [poolNew]
  repeat' split
  all_goals omega

/-- C4: for a Resource Limiter built by pool.New, in every reachable
state of the acquire/release step relation the number of unmatched
successful Acquires never exceeds the effective capacity; at
saturation no Acquire can succeed (only a return of the context's
cancellation cause is possible), so the next Acquire succeeds only
after a Release; and a blocked Acquire whose context is done always has
the return-the-cause transition available instead of blocking
forever. -/
theorem c4_pool_capacity_invariant :
    (∀ (size : Int) (n : Nat), PoolReach (poolNew size).toNat n → (n : Int) ≤ poolNew size)
    ∧ (∀ (K : Nat) (ctx : Option GoError) (res : Option GoError × Nat),
        AcquireStep K K ctx res → ∃ c, ctx = some c ∧ res = (some c, K))
    ∧ (∀ (K n : Nat) (c : GoError), AcquireStep K n (some c) (some c, n)) := by
  refine ⟨?_, ?_, ?_⟩
  · intro size n h
    have hle : n ≤ (poolNew size).toNat := poolReach_le h
    have hpos : 1 ≤ poolNew size := poolNew_pos size
    omega
  · intro K ctx res h
    cases h with
    | ok ctx hlt => omega
    | canceled c => exact ⟨c, rfl, rfl⟩
  · intro K n c
    exact AcquireStep.canceled c

/-- C4 witness: with requested capacity 2, the state after two
successful Acquires is reachable and within the bound; at saturation
with a deadline-expired context, Acquire returns the deadline cause. -/
theorem c4_pool_capacity_invariant_witness :
    PoolReach (poolNew 2).toNat 2 ∧ (2 : Int) ≤ poolNew 2
    ∧ AcquireStep (poolNew 2).toNat 2 (some GoError.deadlineExceeded)
        (some GoError.deadlineExceeded, 2) :=
  ⟨PoolReach.acquire (PoolReach.acquire PoolReach.init (by decide)) (by decide),
   c4_pool_capacity_invariant.1 2 2
     (PoolReach.acquire (PoolReach.acquire PoolReach.init (by decide)) (by decide)),
   c4_pool_capacity_invariant.2.2 (poolNew 2).toNat 2 GoError.deadlineExceeded⟩

/-- The first non-nil outcome along the completion order is the error
the errgroup records. -/
theorem findSome_first (oc : Nat → Option GoError) :
    ∀ (pre : List Nat) (i : Nat) (post : List Nat) (c : GoError),
      (∀ j ∈ pre, oc j = none) → oc i = some c →
      List.findSome? oc (pre ++ i :: post) = some c := by
  intro pre
  induction pre with
  | nil =>
    intro i post c _ hc
    simp [List.findSome?_cons, hc]
  | cons a rest ih =>
    intro i post c hpre hc
    have ha : oc a = none := hpre a (List.mem_cons_self a rest)
    simp only [List.cons_append, List.findSome?_cons, ha]
    exact ih i post c (fun j hj => hpre j (List.mem_cons_of_mem a hj)) hc

/-- Conversely, any recorded error is the outcome of a completing task
preceded only by successful completions. -/
theorem findSome_first_inv (oc : Nat → Option GoError) :
    ∀ (order : List Nat) (c : GoError), List.findSome? oc order = some c →
      ∃ pre i post, order = pre ++ i :: post
        ∧ (∀ j ∈ pre, oc j = none) ∧ oc i = some c := by
  intro order
  induction order with
  | nil => intro c h; simp [List.findSome?] at h
  | cons a rest ih =>
    intro c h
    cases ha : oc a with
    | some d =>
      simp only [List.findSome?_cons, ha] at h
      refine ⟨[], a, rest, rfl, ?_, ?_⟩
      · intro j hj
        exact absurd hj (List.not_mem_nil j)
      · rw [ha, h]
    | none =>
      simp only [List.findSome?_cons, ha] at h
      obtain ⟨pre, i, post, heq, hpre, hc⟩ := ih c h
      refine ⟨a :: pre, i, post, by rw [heq, List.cons_append], ?_, hc⟩
      intro j hj
      rcases List.mem_cons.mp hj with h1 | h1
      · rw [h1]
        exact ha
      · exact hpre j h1

/-- C3 counterexample: with a caller deadline elapsing, step 0 returns
the propagated deadline error and completes before step 1, which
returns a classified domain (non-cancellation) error.  Process then
returns the propagated-cancellation error even though a domain error
was observed, contradicting the claim that this never happens. -/
theorem c3_counterexample_cancellation_returned :
    (Process c3steps c3exec).2 = some GoError.deadlineExceeded
    ∧ errorsIs GoError.deadlineExceeded GoError.deadlineExceeded = true
    ∧ c3exec.outcome 1 = some (GoError.errNew "vendor unavailable" (some "vendor_unavailable"))
    ∧ errorsIs (GoError.errNew "vendor unavailable" (some "vendor_unavailable"))
        GoError.canceled = false
    ∧ errorsIs (GoError.errNew "vendor unavailable" (some "vendor_unavailable"))
        GoError.deadlineExceeded = false := by
  refine ⟨rfl, rfl, rfl, rfl, rfl⟩

/-- C3 (amended): Process returns the first non-nil error in completion
order.  Hence a domain error that completes before every other failure
is returned and the returned error is then not a propagated
cancellation; a cancellation error is returned exactly when the
earliest-completing failure is itself a cancellation — which includes,
but is not limited to, executions where cancellations are the only
failures (a domain error completing after an earlier cancellation does
not displace it). -/
theorem c3_first_error_reported :
    (∀ (steps : List Step) (e : Exec) (pre : List Nat) (i : Nat) (post : List Nat) (c : GoError),
      e.order = pre ++ i :: post → (∀ j ∈ pre, e.outcome j = none) → e.outcome i = some c →
      (Process steps e).2 = some c)
    ∧ (∀ (steps : List Step) (e : Exec) (c : GoError), (Process steps e).2 = some c →
      ∃ pre i post, e.order = pre ++ i :: post
        ∧ (∀ j ∈ pre, e.outcome j = none) ∧ e.outcome i = some c)
    ∧ (∀ (steps : List Step) (e : Exec) (pre : List Nat) (i : Nat) (post : List Nat)
        (c : GoError),
      e.order = pre ++ i :: post → (∀ j ∈ pre, e.outcome j = none) → e.outcome i = some c →
      errorsIs c GoError.canceled = false → errorsIs c GoError.deadlineExceeded = false →
      ∃ d, (Process steps e).2 = some d
        ∧ errorsIs d GoError.canceled = false ∧ errorsIs d GoError.deadlineExceeded = false) := by
  refine ⟨?_, ?_, ?_⟩
  · intro steps e pre i post c horder hpre hc
    simp only [Process]
    rw [horder]
    exact findSome_first e.outcome pre i post c hpre hc
  · intro steps e c h
    simp only [Process] at h
    exact findSome_first_inv e.outcome e.order c h
  · intro steps e pre i post c horder hpre hc hc1 hc2
    refine ⟨c, ?_, hc1, hc2⟩
    simp only [Process]
    rw [horder]
    exact findSome_first e.outcome pre i post c hpre hc

/-- C3 witness: step 0 succeeds and completes first, step 1 fails with
a classified domain error; Process returns that domain error. -/
theorem c3_first_error_reported_witness :
    c3wexec.order = [0] ++ 1 :: []
    ∧ c3wexec.outcome 1 = some (GoError.errNew "no courier available" (some "no_courier"))
    ∧ (Process c3steps c3wexec).2 = some (GoError.errNew "no courier available" (some "no_courier")) :=
  ⟨rfl, rfl,
   c3_first_error_reported.1 c3steps c3wexec [0] 1 []
     (GoError.errNew "no courier available" (some "no_courier")) rfl
     (by intro j hj; simp at hj; subst hj; rfl) rfl⟩

/-- errors.Is of an error against itself succeeds. -/
theorem errorsIs_refl (c : GoError) : errorsIs c c = true := by
  cases c <;> simp [errorsIs]

/-- When exactly one completing task fails, the errgroup records that
task's error, whatever the completion order. -/
theorem findSome_only_failure (oc : Nat → Option GoError) (order : List Nat) (n i : Nat)
    (c : GoError) (hperm : order.Perm (List.range n)) (hi : i < n)
    (hc : oc i = some c) (honly : ∀ j, j ≠ i → oc j = none) :
    List.findSome? oc order = some c := by
  have hmem : i ∈ order := hperm.mem_iff.mpr (List.mem_range.mpr hi)
  obtain ⟨pre, post, horder⟩ := List.append_of_mem hmem
  have hnd2 : order.Nodup := hperm.nodup_iff.mpr (List.nodup_range n)
  rw [horder] at hnd2
  have hipre : i ∉ pre := by
    intro hip
    rcases List.nodup_append.mp hnd2 with ⟨_, _, hdisj⟩
    exact hdisj hip (List.mem_cons_self i post)
  rw [horder]
  exact findSome_first oc pre i post c (fun j hj => honly j (fun hji => hipre (hji ▸ hj))) hc

/-- C6 counterexample: in the map-variant orchestration (one of the
claim's cited sources), the vendor step failing with a plain error that
exposes no classification tag is recorded with detail "internal", not
with empty detail. -/
theorem c6_counterexample_map_detail_internal :
    errorsAsKind (GoError.errNew "boom" none) = none
    ∧ (ProcessMap c6exec).1 =
      [{ name := "payment", status := "ok", durationMS := 0, detail := "" },
       { name := "vendor", status := "error", durationMS := 0, detail := "internal" },
       { name := "courier", status := "ok", durationMS := 0, detail := "" }]
    ∧ ("internal" : String) ≠ "" := by
  refine ⟨rfl, rfl, by decide⟩

/-- C6 (amended): a step failing with a plain error carrying no
classification tag anywhere in its wrapping chain is recorded by the
array-variant Process with status "error" and empty detail, and when it
is the only failure the returned error compares equal, via unwrapping,
to the original; the map-variant Process likewise records status
"error" and returns the original error, but its detail is the fallback
tag "internal" computed by apperr.Kind, not the empty string. -/
theorem c6_unclassified_error_passthrough (steps : List Step) (e : Exec) (i : Nat) (c : GoError)
    (hperm : e.order.Perm (List.range steps.length)) (hi : i < steps.length)
    (hc : e.outcome i = some c)
    (hplain : errorsAsKind c = none)
    (hnc : errorsIs c GoError.canceled = false)
    (hnd : errorsIs c GoError.deadlineExceeded = false)
    (honly : ∀ j, j ≠ i → e.outcome j = none) :
    ((Process steps e).1[i]? =
      some { name := nameOf steps i, status := "error", durationMS := e.durMS i, detail := "" })
    ∧ (Process steps e).2 = some c
    ∧ errorsIs c c = true
    ∧ (e.order.Perm (List.range 3) → i < 3 →
        errorsIs c errPaymentDeclined = false → errorsIs c errVendorUnavailable = false →
        errorsIs c errNoCourierAvailable = false →
        (ProcessMap e).1[i]? =
          some { name := stepName3 i, status := "error", durationMS := e.durMS i
                 detail := "internal" }
        ∧ (ProcessMap e).2 = some c) := by
  have hmem : i ∈ e.order := hperm.mem_iff.mpr (List.mem_range.mpr hi)
  have hslot := process_fst_getElem steps e i hi
  rw [writeFold_mem steps e.outcome e.durMS e.order (prefill steps) i hmem hi] at hslot
  refine ⟨?_, ?_, errorsIs_refl c, ?_⟩
  · rw [hslot, hc]
    simp [stepOutcomeResult, hnc, hnd, hplain]
  · simp only [Process]
    exact findSome_only_failure e.outcome e.order steps.length i c hperm hi hc honly
  · intro h3 hi3 hps hvs hcs
    constructor
    · rw [processMap_fst e h3]
      interval_cases i <;>
        simp [recordResult, apperrKind, stepName3, hc, hnc, hnd, hps, hvs, hcs]
    · simp only [ProcessMap]
      exact findSome_only_failure e.outcome e.order 3 i c h3 hi3 hc honly

/-- C6 witness: the vendor step failing with the plain error "boom"
yields an array-variant result with status error and empty detail, and
Process returns that very error. -/
theorem c6_unclassified_error_passthrough_witness :
    c6exec.order.Perm (List.range steps3.length)
    ∧ c6exec.outcome 1 = some (GoError.errNew "boom" none)
    ∧ ((Process steps3 c6exec).1[1]? =
        some { name := "vendor", status := "error", durationMS := 0, detail := "" })
    ∧ (Process steps3 c6exec).2 = some (GoError.errNew "boom" none)
    ∧ errorsIs (GoError.errNew "boom" none) (GoError.errNew "boom" none) = true :=
  have h := c6_unclassified_error_passthrough steps3 c6exec 1 (GoError.errNew "boom" none)
    (by decide) (by decide) rfl rfl rfl rfl
    (fun j hj => by simp only [c6exec]; exact if_neg hj)
  ⟨by decide, rfl, h.1, h.2.1, h.2.2.1⟩

/-- The two classification helpers agree on name, status and duration;
only the detail computation differs. -/
theorem outcomeRecord_proj (nm : String) (err : Option GoError) (d : Int) :
    ((stepOutcomeResult nm err d).name, (stepOutcomeResult nm err d).status,
      (stepOutcomeResult nm err d).durationMS)
    = ((recordResult nm err d).name, (recordResult nm err d).status,
      (recordResult nm err d).durationMS) := by
  cases err with
  | none => rfl
  | some e =>
    simp only [stepOutcomeResult, recordResult]
    split <;> rfl

/-- With all three tasks completed, the array variant on the steps
payment, vendor, courier returns exactly one classified result per
slot. -/
theorem process_steps3_fst (e : Exec) (h3 : e.order.Perm (List.range 3)) :
    (Process steps3 e).1 =
      [stepOutcomeResult "payment" (e.outcome 0) (e.durMS 0),
       stepOutcomeResult "vendor" (e.outcome 1) (e.durMS 1),
       stepOutcomeResult "courier" (e.outcome 2) (e.durMS 2)] := by
  have h0 : (0 : Nat) ∈ e.order := h3.mem_iff.mpr (by decide)
  have h1 : (1 : Nat) ∈ e.order := h3.mem_iff.mpr (by decide)
  have h2 : (2 : Nat) ∈ e.order := h3.mem_iff.mpr (by decide)
  show [writeFold steps3 e.outcome e.durMS e.order (prefill steps3) 0,
        writeFold steps3 e.outcome e.durMS e.order (prefill steps3) 1,
        writeFold steps3 e.outcome e.durMS e.order (prefill steps3) 2] = _
  rw [writeFold_mem steps3 e.outcome e.durMS e.order (prefill steps3) 0 h0 (by decide),
      writeFold_mem steps3 e.outcome e.durMS e.order (prefill steps3) 1 h1 (by decide),
      writeFold_mem steps3 e.outcome e.durMS e.order (prefill steps3) 2 h2 (by decide)]
  rfl

/-- C7 counterexample: the two aggregation strategies are not
equivalent: for the same request, the same step outcomes (payment
failing with a plain untagged error) and the same completion order, the
two Process implementations return different StepResult lists — the
array variant records empty detail, the map variant records
"internal". -/
theorem c7_counterexample_strategies_differ :
    (Process steps3 c7exec).1 ≠ (ProcessMap c7exec).1
    ∧ (Process steps3 c7exec).1.map (fun r => r.detail) = ["", "", ""]
    ∧ (ProcessMap c7exec).1.map (fun r => r.detail) = ["internal", "", ""] := by
  refine ⟨by decide, rfl, rfl⟩

/-- C7 (amended): for every request, every identical set of step
outcomes and every completion order, the two Process implementations
return the same ordered step names, statuses and durations, and the
same error; full StepResult equality fails only on the detail field,
which the array variant computes by capability lookup (empty when
absent) and the map variant by the fixed apperr.Kind table ("internal"
when unmatched). -/
theorem c7_aggregation_strategies_agree (e : Exec) (h3 : e.order.Perm (List.range 3)) :
    (Process steps3 e).1.map (fun r => (r.name, r.status, r.durationMS))
      = (ProcessMap e).1.map (fun r => (r.name, r.status, r.durationMS))
    ∧ (Process steps3 e).2 = (ProcessMap e).2 := by
  constructor
  · rw [processMap_fst e h3, process_steps3_fst e h3]
    simp only [List.map_cons, List.map_nil]
    rw [outcomeRecord_proj "payment" (e.outcome 0) (e.durMS 0),
        outcomeRecord_proj "vendor" (e.outcome 1) (e.durMS 1),
        outcomeRecord_proj "courier" (e.outcome 2) (e.durMS 2)]
  · rfl

/-- C7 witness: with a classified courier failure completing first,
both strategies produce the same names, statuses, durations and the
same returned error. -/
theorem c7_aggregation_strategies_agree_witness :
    c7wexec.order.Perm (List.range 3)
    ∧ (Process steps3 c7wexec).1.map (fun r => (r.name, r.status, r.durationMS))
      = (ProcessMap c7wexec).1.map (fun r => (r.name, r.status, r.durationMS))
    ∧ (Process steps3 c7wexec).2 = (ProcessMap c7wexec).2 :=
  ⟨by decide, (c7_aggregation_strategies_agree c7wexec (by decide)).1,
   (c7_aggregation_strategies_agree c7wexec (by decide)).2⟩

end OrderPipeline
